import Mathlib

/-!
Shallow embedding of the sifas_card_downloader core (src/classes.py,
src/downloader.py, src/html_parser.py) and verification of the frozen
claims about its specification.

Conventions of the embedding:
* Python `int` becomes `Int` (item keys), digit parsing produces `Nat`.
* Python exceptions become an explicit `Exc` error type carried in `Except`.
* `re.search` of the literal pattern `/2x/` becomes `reSearchLit`, a
  left-to-right scan for the literal as a substring.
* `pathlib.Path` values become `PathC := List (List Char)`: the list of
  path components, as produced by splitting on `/` and dropping empty and
  `"."` components (the root anchor of absolute paths is not modelled; no
  claim depends on it).
* The filesystem seen by the download phase becomes the list of paths that
  exist; a write conses the destination path onto it.
* Network fetches become explicit function arguments (`fetch`, `fetchOk`):
  the code under verification is single-threaded cooperative, so each
  phase is modelled as the sequential fold it performs over its tasks.
-/

namespace SifasModel

/-- Exceptions of the program: `ListParsingException`, `ItemParsingException`
and `NoHTTPSessionException` from src/html_parser.py, plus Python's built-in
`IndexError` (reachable by indexing past the end of a list) and a generic
network/IO failure raised while fetching a binary asset. -/
inductive Exc where
  | listParsing
  | itemParsing
  | noSession
  | indexError
  | network
deriving DecidableEq, Repr

/-- Model of `re.Pattern.search` for a literal pattern: scan left to right,
succeeding iff the literal occurs as a contiguous substring. -/
def reSearchLit (pat : List Char) : List Char → Bool
  | [] => pat.isEmpty
  | c :: rest => pat.isPrefixOf (c :: rest) || reSearchLit pat rest

/-- Correctness of the literal-search model: it decides the substring
(`<:+:`, infix-of) relation. -/
theorem reSearchLit_eq_true_iff (pat : List Char) (l : List Char) :
    reSearchLit pat l = true ↔ pat <:+: l := by
  induction l with
  | nil =>
    simp [reSearchLit, List.isEmpty_iff, List.infix_nil]
  | cons c rest ih =>
    simp [reSearchLit, ih, List.infix_cons_iff, List.isPrefixOf_iff_prefix]

theorem reSearchLit_eq_false_iff (pat : List Char) (l : List Char) :
    reSearchLit pat l = false ↔ ¬ pat <:+: l := by
  rw [← reSearchLit_eq_true_iff]
  cases reSearchLit pat l <;> simp

/-- Dataclass `Card` from src/classes.py (the `attribute` field is renamed
`attr` because `attribute` is a Lean keyword). -/
structure Card where
  key : Int
  idol : String
  rarity : String
  attr : String
  unit : String
  subunit : String
  year : String
  normal_url : String
  idolized_url : String
deriving DecidableEq, Repr

/-- Dataclass `Still` from src/classes.py. -/
structure Still where
  key : Int
  url : String
deriving DecidableEq, Repr

/-- `Card.is_double_sized`: `re.compile(r"/2x/").search(self.normal_url) is not None`. -/
def Card.is_double_sized (c : Card) : Bool :=
  reSearchLit "/2x/".data c.normal_url.data

/-- `Card.get_urls`: `[self.normal_url, self.idolized_url]`. -/
def Card.get_urls (c : Card) : List String :=
  [c.normal_url, c.idolized_url]

/-- `Card.set_url`: slot 0 is the normal URL, any other slot the idolized URL. -/
def Card.set_url (c : Card) (i : Nat) (url : String) : Card :=
  if i = 0 then { c with normal_url := url } else { c with idolized_url := url }

/-- `Card.needs_update`: `not self.is_double_sized() and self.rarity != "Rare"`. -/
def Card.needs_update (c : Card) : Bool :=
  !c.is_double_sized && c.rarity != "Rare"

/-- `Still.is_double_sized`: `re.compile(r"/2x/").search(self.url) is not None`. -/
def Still.is_double_sized (s : Still) : Bool :=
  reSearchLit "/2x/".data s.url.data

/-- `Still.get_urls`: `[self.url]`. -/
def Still.get_urls (s : Still) : List String :=
  [s.url]

/-- `Still.set_url`: the slot index is ignored, the single URL is replaced. -/
def Still.set_url (s : Still) (_ : Nat) (url : String) : Still :=
  { s with url := url }

/-- `Still.needs_update`: `not self.is_double_sized()`. -/
def Still.needs_update (s : Still) : Bool :=
  !s.is_double_sized

/-- The `Item` type alias `Card | Still` from src/classes.py, as a sum type. -/
inductive Item where
  | card : Card → Item
  | still : Still → Item
deriving DecidableEq, Repr

/-- The two kinds of items. -/
inductive Kind where
  | card
  | still
deriving DecidableEq, Repr

def Item.kind : Item → Kind
  | .card _ => .card
  | .still _ => .still

def Item.key : Item → Int
  | .card c => c.key
  | .still s => s.key

def Item.get_urls : Item → List String
  | .card c => c.get_urls
  | .still s => s.get_urls

def Item.set_url : Item → Nat → String → Item
  | .card c, i, url => .card (c.set_url i url)
  | .still s, i, url => .still (s.set_url i url)

def Item.is_double_sized : Item → Bool
  | .card c => c.is_double_sized
  | .still s => s.is_double_sized

def Item.needs_update : Item → Bool
  | .card c => c.needs_update
  | .still s => s.needs_update

/-- The primary URL of an item: `item.get_urls()[0]` (both variants always
have at least one URL, so the Python indexing never fails). -/
def Item.primary_url (it : Item) : String :=
  it.get_urls.headD ""

theorem Item.get_urls_ne_nil (it : Item) : it.get_urls ≠ [] := by
  cases it <;> simp [Item.get_urls, Card.get_urls, Still.get_urls]

/-- The loop `for i in range(len(item.get_urls())): item.set_url(i,
updated_item.get_urls()[i])` from `Downloader.update_if_needed`; `none`
models the `IndexError` Python would raise if `updated_item` had fewer
URL slots than `item`. -/
def setUrlsFrom (item : Item) (updatedUrls : List String) : Option Item :=
  (List.range item.get_urls.length).foldlM
    (fun it i => (updatedUrls.get? i).map (fun u => it.set_url i u)) item

/-- `Downloader.update_if_needed`: if the item reports `needs_update`, fetch
its detail page again (`fetch item.key` stands for
`self.item_parser.get_item(item.key)`), flag the key for re-download when the
primary URL changed, and copy every URL slot from the freshly parsed item.
Returns the updated item together with the flag (`true` means
`self.updateables.append(item.key)` ran). -/
def update_if_needed (fetch : Int → Except Exc Item) (item : Item) :
    Except Exc (Item × Bool) :=
  if item.needs_update then do
    let updated ← fetch item.key
    let flag := item.primary_url != updated.primary_url
    match setUrlsFrom item updated.get_urls with
    | some item2 => .ok (item2, flag)
    | none => .error .indexError
  else
    .ok (item, false)

/-- A concrete card that is not high-res and whose rarity is the one the code
compares against (`"Rare"`). -/
def rareCard : Card :=
  { key := 1, idol := "a", rarity := "Rare", attr := "b", unit := "c",
    subunit := "d", year := "e",
    normal_url := "//i/x.png", idolized_url := "//i/y.png" }

/-- C9: for every item, `is_double_sized` is true iff the substring `/2x/`
occurs somewhere in the item's primary URL (the URL at slot 0). -/
theorem claim_C9 (it : Item) :
    it.is_double_sized = true ↔ "/2x/".data <:+: it.primary_url.data := by
  cases it with
  | card c =>
    simp [Item.is_double_sized, Item.primary_url, Item.get_urls,
      Card.is_double_sized, Card.get_urls, reSearchLit_eq_true_iff]
  | still s =>
    simp [Item.is_double_sized, Item.primary_url, Item.get_urls,
      Still.is_double_sized, Still.get_urls, reSearchLit_eq_true_iff]

/-- C1, counterexample: the claim says a Card's `needsResolutionCheck` returns
true unless the card is high-res (and its rarity differs from the top tier),
so it must return true on every card that is not high-res; but the code
returns false on a card that is not high-res whenever its rarity is `"Rare"`. -/
theorem claim_C1_counterexample :
    rareCard.is_double_sized = false ∧ rareCard.needs_update = false := by
  decide

/-- C1, amended: for every Card, `needsResolutionCheck` returns true iff the
card is NOT high-res AND its rarity differs from `"Rare"` (in particular a
high-res card never needs a further check, and a `"Rare"`-rarity card never
needs one at all); for every Still, it returns true iff the item is not yet
high-res. -/
theorem claim_C1 :
    (∀ c : Card, (Item.card c).needs_update = true ↔
      (¬ ("/2x/".data <:+: c.normal_url.data) ∧ c.rarity ≠ "Rare")) ∧
    (∀ s : Still, (Item.still s).needs_update = true ↔
      ¬ ("/2x/".data <:+: s.url.data)) := by
  constructor
  · intro c
    simp [Item.needs_update, Card.needs_update, Card.is_double_sized,
      reSearchLit_eq_false_iff, bne_iff_ne, Bool.not_eq_true',
      reSearchLit_eq_true_iff]
  · intro s
    simp [Item.needs_update, Still.needs_update, Still.is_double_sized,
      reSearchLit_eq_false_iff, Bool.not_eq_true']

/-- C2: once an item's primary URL is high-res, `needs_update` is false, so a
reconciliation pass returns the item unchanged, does not flag it for
re-download, and never consults the network (the result is the same for every
`fetch` function). -/
theorem claim_C2 (it : Item) (fetch : Int → Except Exc Item)
    (h : it.is_double_sized = true) :
    it.needs_update = false ∧ update_if_needed fetch it = .ok (it, false) := by
  have hnu : it.needs_update = false := by
    cases it with
    | card c =>
      simpa [Item.needs_update, Card.needs_update, Item.is_double_sized] using
        fun hh => absurd h (by simp [Item.is_double_sized, hh])
    | still s =>
      simp_all [Item.needs_update, Still.needs_update, Item.is_double_sized]
  exact ⟨hnu, by simp [update_if_needed, hnu]⟩

/-- A concrete high-res still used to instantiate C2. -/
def hiResStill : Still := { key := 1, url := "//i/2x/x.png" }

theorem claim_C2_witness :
    (Item.still hiResStill).is_double_sized = true ∧
      ((Item.still hiResStill).needs_update = false ∧
        update_if_needed (fun _ => Except.error Exc.network)
          (Item.still hiResStill) = .ok (Item.still hiResStill, false)) :=
  ⟨by decide, claim_C2 (Item.still hiResStill) _ (by decide)⟩

/-- C3: when the reconciler actually runs on an item (`needs_update` holds)
and the detail parser returns a freshly-parsed item of the same kind, the
item's key is flagged for re-download iff the fresh primary URL differs from
the stored one, and every URL slot is overwritten with the fresh values in the
same step, so the reconciled item's URL list equals the fresh one exactly
(never a mix of old and new). -/
theorem claim_C3 (item fresh : Item) (hn : item.needs_update = true)
    (hk : item.kind = fresh.kind) :
    ∃ item2 flag,
      update_if_needed (fun _ => .ok fresh) item = .ok (item2, flag) ∧
      (flag = true ↔ item.primary_url ≠ fresh.primary_url) ∧
      item2.get_urls = fresh.get_urls ∧ item2.key = item.key := by
  cases item with
  | card c =>
    cases fresh with
    | card cf =>
      refine ⟨Item.card { c with normal_url := cf.normal_url, idolized_url := cf.idolized_url }, (Item.card c).primary_url != (Item.card cf).primary_url, ?_, ?_, ?_, ?_⟩
      · simp only [update_if_needed, hn, if_true]
        rfl
      · simp [bne_iff_ne]
      · simp [Item.get_urls, Card.get_urls]
      · simp [Item.key]
    | still sf => simp [Item.kind] at hk
  | still s =>
    cases fresh with
    | card cf => simp [Item.kind] at hk
    | still sf =>
      refine ⟨Item.still { s with url := sf.url }, (Item.still s).primary_url != (Item.still sf).primary_url, ?_, ?_, ?_, ?_⟩
      · simp only [update_if_needed, hn, if_true]
        rfl
      · simp [bne_iff_ne]
      · simp [Item.get_urls, Still.get_urls]
      · simp [Item.key]

/-- A concrete non-high-res card together with a fresh parse of it at a higher
resolution, used to instantiate C3. -/
def staleCard : Card :=
  { key := 7, idol := "a", rarity := "UR", attr := "b", unit := "c",
    subunit := "d", year := "e",
    normal_url := "//i/x.png", idolized_url := "//i/y.png" }

/-- The fresh parse of `staleCard` with both URLs upgraded. -/
def freshCard : Card :=
  { staleCard with normal_url := "//i/2x/x.png", idolized_url := "//i/2x/y.png" }

theorem claim_C3_witness :
    (Item.card staleCard).needs_update = true ∧
      (Item.card staleCard).kind = (Item.card freshCard).kind ∧
      (∃ item2 flag,
        update_if_needed (fun _ => .ok (Item.card freshCard))
          (Item.card staleCard) = .ok (item2, flag) ∧
        (flag = true ↔
          (Item.card staleCard).primary_url ≠ (Item.card freshCard).primary_url) ∧
        item2.get_urls = (Item.card freshCard).get_urls ∧
        item2.key = (Item.card staleCard).key) :=
  ⟨by decide, rfl,
    claim_C3 (Item.card staleCard) (Item.card freshCard) (by decide) rfl⟩

/-- A `pathlib.Path` value, modelled as its list of components: the input
string split on `/`, with empty and `"."` components dropped (the anchor of
an absolute path is not modelled; no claim depends on it). -/
abbrev PathC : Type := List (List Char)

/-- Components obtained from one string, as `pathlib` parses it. -/
def parseComps (l : List Char) : PathC :=
  (l.splitOnP (fun c => c == '/')).filter
    (fun comp => !(comp == ([] : List Char)) && !(comp == ['.']))

/-- `parsePath` builds a `Path` from a string. -/
def parsePath (s : String) : PathC :=
  parseComps s.data

/-- `Path(s).name`: the last component (empty for a path with no components). -/
def pathlibName (s : String) : List Char :=
  (parsePath s).getLast?.getD []

/-- `Path(s).suffix`: the extension of the last component, computed exactly as
`pathlib` does — take the position `i` of the last `.` in the name and return
`name[i:]` when `0 < i < len(name) - 1`, otherwise the empty string. -/
def pathlibSuffix (s : String) : List Char :=
  let name := pathlibName s
  match name.reverse.findIdx? (fun c => c == '.') with
  | none => []
  | some j =>
    let i := name.length - 1 - j
    if 0 < i ∧ i < name.length - 1 then name.drop i else []

/-- Python `str.replace(pat, rep)` for a non-empty pattern, helper: scan the
string one character at a time; `skip` counts characters still to drop from a
match already emitted. -/
def replaceAllAux (pat rep : List Char) : Nat → List Char → List Char
  | _, [] => []
  | skip+1, _ :: t => replaceAllAux pat rep skip t
  | 0, c :: t =>
    if pat ≠ [] ∧ pat.isPrefixOf (c :: t) then
      rep ++ replaceAllAux pat rep (pat.length - 1) t
    else
      c :: replaceAllAux pat rep 0 t

/-- Python `str.replace(pat, rep)` for a non-empty pattern: replace every
non-overlapping occurrence, left to right, without rescanning the
replacement text. -/
def replaceAll (pat rep : List Char) (l : List Char) : List Char :=
  replaceAllAux pat rep 0 l

/-- Every character of `replaceAllAux pat rep skip l` comes from `rep` or
from `l`. -/
theorem mem_replaceAllAux (pat rep : List Char) (ch : Char) :
    ∀ (l : List Char) (skip : Nat), ch ∈ replaceAllAux pat rep skip l →
      ch ∈ rep ∨ ch ∈ l := by
  intro l
  induction l with
  | nil =>
    intro skip hm
    cases skip <;> simp [replaceAllAux] at hm
  | cons c t ih =>
    intro skip hm
    cases skip with
    | succ k =>
      rcases ih k hm with hm | hm
      · exact Or.inl hm
      · exact Or.inr (List.mem_cons_of_mem _ hm)
    | zero =>
      rw [replaceAllAux] at hm
      by_cases hc : pat ≠ [] ∧ pat.isPrefixOf (c :: t)
      · rw [if_pos hc] at hm
        rcases List.mem_append.mp hm with hm | hm
        · exact Or.inl hm
        · rcases ih _ hm with hm | hm
          · exact Or.inl hm
          · exact Or.inr (List.mem_cons_of_mem _ hm)
      · rw [if_neg hc] at hm
        rcases List.mem_cons.mp hm with hm | hm
        · exact Or.inr (hm ▸ List.mem_cons_self _ _)
        · rcases ih _ hm with hm | hm
          · exact Or.inl hm
          · exact Or.inr (List.mem_cons_of_mem _ hm)

/-- Every character of `replaceAll pat rep l` comes from `rep` or from `l`. -/
theorem mem_replaceAll (pat rep : List Char) (ch : Char)
    (l : List Char) (h : ch ∈ replaceAll pat rep l) : ch ∈ rep ∨ ch ∈ l :=
  mem_replaceAllAux pat rep ch l 0 h

/-- When no occurrence of the pattern can start inside `a` (no character of
`a` equals the pattern's first character), `replaceAll` copies `a` verbatim
and continues in `b`. -/
theorem replaceAll_append_of_head_notMem (p : Char) (pt rep : List Char) :
    ∀ a : List Char, (∀ ch ∈ a, ch ≠ p) → ∀ b : List Char,
      replaceAll (p :: pt) rep (a ++ b) = a ++ replaceAll (p :: pt) rep b := by
  intro a
  induction a with
  | nil =>
    intro _ b
    simp
  | cons c a' ih =>
    intro ha b
    have hc : c ≠ p := ha c (List.mem_cons_self _ _)
    show replaceAllAux (p :: pt) rep 0 (c :: (a' ++ b)) = _
    rw [replaceAllAux, if_neg]
    · rw [show replaceAllAux (p :: pt) rep 0 (a' ++ b) =
        a' ++ replaceAll (p :: pt) rep b from
          ih (fun ch hm => ha ch (List.mem_cons_of_mem _ hm)) b]
      simp [replaceAll]
    · rintro ⟨-, hpre⟩
      simp [List.isPrefixOf] at hpre
      exact hc hpre.1.symm

/-- A string with no separator, no emptiness and not equal to `"."` parses as
a single path component. -/
theorem parseComps_eq_single (l : List Char) (hs : '/' ∉ l) (hne : l ≠ [])
    (hdot : l ≠ ['.']) : parseComps l = [l] := by
  unfold parseComps
  rw [List.splitOnP_eq_single]
  · simp [hne, hdot]
  · intro x hx
    simp only [beq_iff_eq]
    exact fun hxe => hs (hxe ▸ hx)

/-- Modelled from the spec: `consts.CARD_RESULTS_DIR`, the kind-specific
subdirectory for card assets. The `consts` module is not part of src/; the
spec says only that each kind's files live under a kind-specific
subdirectory, so the concrete name is immaterial to every claim. -/
def CARD_RESULTS_DIR : String := "Cards"

/-- Modelled from the spec: `consts.STILL_RESULTS_DIR`, the kind-specific
subdirectory for still assets (see `CARD_RESULTS_DIR`). -/
def STILL_RESULTS_DIR : String := "Stills"

/-- `Card.get_paths`: the normal-asset filename is
`f"{key}_{unit}_{idol}_Normal{Path(normal_url).suffix}"`, the idolized one is
obtained from it by `str.replace("Normal", "Idolized")` (note: the idolized
slot reuses the NORMAL URL's suffix), and both live under
`path / CARD_RESULTS_DIR`. -/
def Card.get_paths (c : Card) (path : String) : List PathC :=
  let file_name : String := toString c.key ++ "_" ++ c.unit ++ "_" ++ c.idol
  let base_path : PathC := parsePath path ++ parsePath CARD_RESULTS_DIR
  let normal_path : String := file_name ++ "_Normal" ++ String.mk (pathlibSuffix c.normal_url)
  let idolized_path : List Char := replaceAll "Normal".data "Idolized".data normal_path.data
  [base_path ++ parseComps normal_path.data, base_path ++ parseComps idolized_path]

/-- `Still.get_paths`: one file named `f"{key}_Still{Path(url).suffix}"` under
`path / STILL_RESULTS_DIR`. -/
def Still.get_paths (s : Still) (path : String) : List PathC :=
  let file_name : String := toString s.key ++ "_Still"
  let base_path : PathC := parsePath path ++ parsePath STILL_RESULTS_DIR
  [base_path ++ parseComps (file_name ++ String.mk (pathlibSuffix s.url)).data]

def Item.get_paths : Item → String → List PathC
  | .card c, path => c.get_paths path
  | .still s, path => s.get_paths path

/-- Cards used to refute C5: they agree on the key, every kind-specific field
and the idolized (slot 1) URL's extension, and differ only in the normal
URL's extension. -/
def extCardA : Card :=
  { key := 3, idol := "a", rarity := "UR", attr := "b", unit := "c",
    subunit := "d", year := "e",
    normal_url := "//i/x.png", idolized_url := "//i/y.jpg" }

/-- Companion of `extCardA` whose normal URL ends in `.gif` instead. -/
def extCardB : Card :=
  { extCardA with normal_url := "//i/x.gif" }

/-- C5, counterexample: the claim makes each destination path a function of
the item's key, its kind-specific fields, and THAT slot's URL's extension;
but the slot-1 (idolized) path of a Card takes its extension from the slot-0
(normal) URL, so two cards agreeing on the key, all fields and the idolized
extension can still get different idolized paths. -/
theorem claim_C5_counterexample :
    extCardA.key = extCardB.key ∧ extCardA.idol = extCardB.idol ∧
    extCardA.rarity = extCardB.rarity ∧ extCardA.attr = extCardB.attr ∧
    extCardA.unit = extCardB.unit ∧ extCardA.subunit = extCardB.subunit ∧
    extCardA.year = extCardB.year ∧
    pathlibSuffix extCardA.idolized_url = pathlibSuffix extCardB.idolized_url ∧
    (extCardA.get_paths "r").get? 1 ≠ (extCardB.get_paths "r").get? 1 := by
  decide

theorem char_isDigit_ne (ch : Char) (hd : ch.isDigit = true) (c : Char)
    (hc : c.isDigit = false) : ch ≠ c := by
  intro he
  rw [he, hc] at hd
  exact Bool.false_ne_true hd

/-- A list beginning with a non-empty chunk is non-empty. -/
theorem keyAppend_ne_nil (keyStr rest : List Char) (hne : keyStr ≠ []) :
    keyStr ++ rest ≠ [] := by
  simp [hne]

/-- A list beginning with a non-empty all-digit chunk is not `"."`. -/
theorem keyAppend_ne_dot (keyStr rest : List Char) (hne : keyStr ≠ [])
    (hdig : ∀ ch ∈ keyStr, ch.isDigit = true) : keyStr ++ rest ≠ ['.'] := by
  cases keyStr with
  | nil => exact absurd rfl hne
  | cons k0 ks =>
    intro habs
    rw [List.cons_append] at habs
    have h0 : k0 = '.' := (List.cons_eq_cons.mp habs).1
    have hd := hdig k0 (List.mem_cons_self _ _)
    rw [h0] at hd
    exact absurd hd (by decide)

/-- C5, amended: `destinationPaths(root)` yields exactly one path per URL
slot; for each kind the paths are a pure function of the item's key, its
kind-specific fields and the PRIMARY URL's file extension (for a Card the
idolized path reuses the normal URL's extension, not its own slot's), so
re-deriving them from the same item and root always yields identical paths;
and whenever the key renders as a non-empty digit string and the fields used
in the filename are free of path separators, the key is the first filename
component of every path. -/
theorem claim_C5 :
    (∀ (it : Item) (root : String),
      (it.get_paths root).length = it.get_urls.length) ∧
    (∀ (c c' : Card) (root : String), c.key = c'.key → c.unit = c'.unit →
      c.idol = c'.idol →
      pathlibSuffix c.normal_url = pathlibSuffix c'.normal_url →
      c.get_paths root = c'.get_paths root) ∧
    (∀ (s s' : Still) (root : String), s.key = s'.key →
      pathlibSuffix s.url = pathlibSuffix s'.url →
      s.get_paths root = s'.get_paths root) ∧
    (∀ (c : Card) (root : String),
      (toString c.key).data ≠ [] →
      (∀ ch ∈ (toString c.key).data, ch.isDigit = true) →
      '/' ∉ c.unit.data → '/' ∉ c.idol.data →
      '/' ∉ pathlibSuffix c.normal_url →
      ∀ p ∈ c.get_paths root, ∃ pre rest,
        p = pre ++ [(toString c.key).data ++ '_' :: rest]) ∧
    (∀ (s : Still) (root : String),
      (toString s.key).data ≠ [] →
      (∀ ch ∈ (toString s.key).data, ch.isDigit = true) →
      '/' ∉ pathlibSuffix s.url →
      ∀ p ∈ s.get_paths root, ∃ pre rest,
        p = pre ++ [(toString s.key).data ++ '_' :: rest]) := by
  refine ⟨?_, ?_, ?_, ?_, ?_⟩
  · intro it root
    cases it <;> rfl
  · intro c c' root hkey hunit hidol hsuf
    simp only [Card.get_paths, hkey, hunit, hidol, hsuf]
  · intro s s' root hkey hsuf
    simp only [Still.get_paths, hkey, hsuf]
  · intro c root hne hdig hunit hidol hsuf p hp
    simp only [Card.get_paths, List.mem_cons, List.not_mem_nil, or_false] at hp
    have hdata : (toString c.key ++ "_" ++ c.unit ++ "_" ++ c.idol ++ "_Normal" ++
        String.mk (pathlibSuffix c.normal_url)).data =
        (toString c.key).data ++ '_' :: (c.unit.data ++ '_' :: (c.idol.data ++
          ("_Normal".data ++ pathlibSuffix c.normal_url))) := by
      simp [String.data_append, List.append_assoc]
    have hkslash : ∀ ch ∈ (toString c.key).data, ch ≠ '/' :=
      fun ch hm => char_isDigit_ne ch (hdig ch hm) '/' (by decide)
    have hbodyslash : '/' ∉ c.unit.data ++ '_' :: (c.idol.data ++
        ("_Normal".data ++ pathlibSuffix c.normal_url)) := by
      intro hm
      rcases List.mem_append.mp hm with hm | hm
      · exact hunit hm
      · rcases List.mem_cons.mp hm with hm | hm
        · exact absurd hm.symm (by decide)
        · rcases List.mem_append.mp hm with hm | hm
          · exact hidol hm
          · rcases List.mem_append.mp hm with hm | hm
            · revert hm
              decide
            · exact hsuf hm
    have hno1 : '/' ∉ (toString c.key).data ++ '_' :: (c.unit.data ++ '_' ::
        (c.idol.data ++ ("_Normal".data ++ pathlibSuffix c.normal_url))) := by
      intro hm
      rcases List.mem_append.mp hm with hm | hm
      · exact hkslash '/' hm rfl
      · rcases List.mem_cons.mp hm with hm | hm
        · exact absurd hm.symm (by decide)
        · exact hbodyslash hm
    rcases hp with hp | hp
    · subst hp
      refine ⟨parsePath root ++ parsePath CARD_RESULTS_DIR,
        c.unit.data ++ '_' :: (c.idol.data ++
          ("_Normal".data ++ pathlibSuffix c.normal_url)), ?_⟩
      rw [hdata, parseComps_eq_single _ hno1
        (keyAppend_ne_nil _ _ hne) (keyAppend_ne_dot _ _ hne hdig)]
    · subst hp
      have hN : ∀ ch ∈ (toString c.key).data ++ ['_'], ch ≠ 'N' := by
        intro ch hm
        rcases List.mem_append.mp hm with hm | hm
        · exact char_isDigit_ne ch (hdig ch hm) 'N' (by decide)
        · simp at hm
          simp [hm]
      have hrepl : replaceAll "Normal".data "Idolized".data
          ((toString c.key).data ++ '_' :: (c.unit.data ++ '_' :: (c.idol.data ++
            ("_Normal".data ++ pathlibSuffix c.normal_url)))) =
          (toString c.key).data ++ '_' :: replaceAll "Normal".data "Idolized".data
            (c.unit.data ++ '_' :: (c.idol.data ++
              ("_Normal".data ++ pathlibSuffix c.normal_url))) := by
        have hx := replaceAll_append_of_head_notMem 'N' "ormal".data
          "Idolized".data ((toString c.key).data ++ ['_']) hN
          (c.unit.data ++ '_' :: (c.idol.data ++
            ("_Normal".data ++ pathlibSuffix c.normal_url)))
        rw [show ('N' :: "ormal".data : List Char) = "Normal".data from rfl] at hx
        rw [List.append_assoc] at hx
        simpa using hx
      have htailslash : '/' ∉ replaceAll "Normal".data "Idolized".data
          (c.unit.data ++ '_' :: (c.idol.data ++
            ("_Normal".data ++ pathlibSuffix c.normal_url))) := by
        intro hm
        rcases mem_replaceAll _ _ _ _ hm with hm | hm
        · revert hm
          decide
        · exact hbodyslash hm
      have hno2 : '/' ∉ (toString c.key).data ++ '_' ::
          replaceAll "Normal".data "Idolized".data
            (c.unit.data ++ '_' :: (c.idol.data ++
              ("_Normal".data ++ pathlibSuffix c.normal_url))) := by
        intro hm
        rcases List.mem_append.mp hm with hm | hm
        · exact hkslash '/' hm rfl
        · rcases List.mem_cons.mp hm with hm | hm
          · exact absurd hm.symm (by decide)
          · exact htailslash hm
      refine ⟨parsePath root ++ parsePath CARD_RESULTS_DIR,
        replaceAll "Normal".data "Idolized".data
          (c.unit.data ++ '_' :: (c.idol.data ++
            ("_Normal".data ++ pathlibSuffix c.normal_url))), ?_⟩
      rw [hdata, hrepl, parseComps_eq_single _ hno2
        (keyAppend_ne_nil _ _ hne) (keyAppend_ne_dot _ _ hne hdig)]
  · intro s root hne hdig hsuf p hp
    simp only [Still.get_paths, List.mem_cons, List.not_mem_nil, or_false] at hp
    subst hp
    have hdata : (toString s.key ++ "_Still" ++ String.mk (pathlibSuffix s.url)).data =
        (toString s.key).data ++ '_' :: ("Still".data ++ pathlibSuffix s.url) := by
      simp [String.data_append, List.append_assoc]
    have hno : '/' ∉ (toString s.key).data ++ '_' ::
        ("Still".data ++ pathlibSuffix s.url) := by
      intro hm
      rcases List.mem_append.mp hm with hm | hm
      · exact char_isDigit_ne '/' (hdig '/' hm) '/' (by decide) rfl
      · rcases List.mem_cons.mp hm with hm | hm
        · exact absurd hm.symm (by decide)
        · rcases List.mem_append.mp hm with hm | hm
          · revert hm
            decide
          · exact hsuf hm
    refine ⟨parsePath root ++ parsePath STILL_RESULTS_DIR,
      "Still".data ++ pathlibSuffix s.url, ?_⟩
    rw [hdata, parseComps_eq_single _ hno
      (keyAppend_ne_nil _ _ hne) (keyAppend_ne_dot _ _ hne hdig)]

theorem get_paths_length (it : Item) (root : String) :
    (it.get_paths root).length = it.get_urls.length := by
  cases it <;> rfl

/-- `Downloader.write_to_file`: `GET https:{url}` then write the body to
`dest`. `fetchOk` tells which URLs the network can currently serve; a
failing fetch raises before anything is written. -/
def write_to_file (fetchOk : String → Bool) (fs : List PathC) (dest : PathC)
    (url : String) : Except Exc (List PathC) :=
  if fetchOk url then .ok (dest :: fs) else .error .network

/-- `Downloader.create_image_file`: skip unless the destination is missing or
the item's key is in `self.updateables`; otherwise fetch
`item.get_urls()[i]` and write it. -/
def create_image_file (fetchOk : String → Bool) (updateables : List Int)
    (fs : List PathC) (item : Item) (path : PathC) (i : Nat) :
    Except Exc (List PathC) :=
  if !fs.contains path || updateables.contains item.key then
    match item.get_urls.get? i with
    | some url => write_to_file fetchOk fs path url
    | none => .error .indexError
  else
    .ok fs

/-- `Downloader.download_images`: process `enumerate(paths)` in order; an
exception stops this item's remaining slots. Returns the filesystem as of
the failure point together with whether an exception escaped. -/
def download_images (fetchOk : String → Bool) (upd : List Int) (item : Item) :
    List PathC → Nat → List PathC → List PathC × Bool
  | [], _, fs => (fs, false)
  | p :: ps, i, fs =>
    match create_image_file fetchOk upd fs item p i with
    | .ok fs2 => download_images fetchOk upd item ps (i+1) fs2
    | .error _ => (fs, true)

/-- `Downloader.get_images`: compute the item's destination paths and run
`download_images` under `try/except`, turning any exception into the log
line `print(f"Couldn't download card {item.key}: ...")`, here the singleton
log `[item.key]`. -/
def get_images (fetchOk : String → Bool) (upd : List Int) (root : String)
    (fs : List PathC) (item : Item) : List PathC × List Int :=
  match download_images fetchOk upd item (item.get_paths root) 0 fs with
  | (fs2, true) => (fs2, [item.key])
  | (fs2, false) => (fs2, [])

/-- `Downloader.download`: run `get_images` over every catalogued item (the
cooperative scheduler executes the gathered tasks' effects sequentially; the
model takes catalog order). The phase itself never raises: per-item failures
surface only in the returned log. -/
def download (fetchOk : String → Bool) (upd : List Int) (root : String) :
    List PathC → List Item → List PathC × List Int
  | fs, [] => (fs, [])
  | fs, item :: rest =>
    let r1 := get_images fetchOk upd root fs item
    let r2 := download fetchOk upd root r1.1 rest
    (r2.1, r1.2 ++ r2.2)

theorem create_image_file_subset (fetchOk : String → Bool) (upd : List Int)
    (fs : List PathC) (item : Item) (p : PathC) (i : Nat) (fs2 : List PathC)
    (h : create_image_file fetchOk upd fs item p i = .ok fs2) : fs ⊆ fs2 := by
  by_cases hc : p ∉ fs ∨ item.key ∈ upd
  · cases hg : item.get_urls[i]? with
    | some url =>
      by_cases hf : fetchOk url = true
      · simp [create_image_file, write_to_file, hc, hg, hf] at h
        subst h
        exact fun x hx => List.mem_cons_of_mem _ hx
      · simp [create_image_file, write_to_file, hc, hg, hf] at h
    | none =>
      simp [create_image_file, hc, hg] at h
  · simp [create_image_file, hc] at h
    subst h
    exact fun x hx => hx

theorem download_images_subset (fetchOk : String → Bool) (upd : List Int)
    (item : Item) :
    ∀ (ps : List PathC) (i : Nat) (fs : List PathC),
      fs ⊆ (download_images fetchOk upd item ps i fs).1 := by
  intro ps
  induction ps with
  | nil =>
    intro i fs
    exact fun x hx => hx
  | cons p ps ih =>
    intro i fs
    unfold download_images
    cases hc : create_image_file fetchOk upd fs item p i with
    | ok fs2 =>
      exact (create_image_file_subset _ _ _ _ _ _ _ hc).trans (ih (i+1) fs2)
    | error e =>
      exact fun x hx => hx

theorem get_images_subset (fetchOk : String → Bool) (upd : List Int)
    (root : String) (fs : List PathC) (item : Item) :
    fs ⊆ (get_images fetchOk upd root fs item).1 := by
  unfold get_images
  cases hd : download_images fetchOk upd item (item.get_paths root) 0 fs with
  | mk fs2 failed =>
    have := download_images_subset fetchOk upd item (item.get_paths root) 0 fs
    rw [hd] at this
    cases failed <;> exact this

theorem download_subset (fetchOk : String → Bool) (upd : List Int)
    (root : String) :
    ∀ (items : List Item) (fs : List PathC),
      fs ⊆ (download fetchOk upd root fs items).1 := by
  intro items
  induction items with
  | nil =>
    intro fs
    exact fun x hx => hx
  | cons item rest ih =>
    intro fs
    exact (get_images_subset fetchOk upd root fs item).trans
      (ih (get_images fetchOk upd root fs item).1)

/-- When every URL an item needs is fetchable, its slot loop finishes without
an exception and leaves every processed destination present. -/
theorem download_images_ok (fetchOk : String → Bool) (upd : List Int)
    (item : Item) (hok : ∀ u ∈ item.get_urls, fetchOk u = true) :
    ∀ (ps : List PathC) (i : Nat) (fs : List PathC),
      i + ps.length ≤ item.get_urls.length →
      (download_images fetchOk upd item ps i fs).2 = false ∧
      ∀ p ∈ ps, p ∈ (download_images fetchOk upd item ps i fs).1 := by
  intro ps
  induction ps with
  | nil =>
    intro i fs _
    exact ⟨rfl, by simp⟩
  | cons p ps ih =>
    intro i fs hlen
    have hi : i < item.get_urls.length := by
      simp only [List.length_cons] at hlen
      omega
    obtain ⟨url, hurl⟩ : ∃ u, item.get_urls[i]? = some u := by
      cases hg : item.get_urls[i]? with
      | some u => exact ⟨u, rfl⟩
      | none =>
        have := List.getElem?_eq_none_iff.mp hg
        omega
    have hnext : i + 1 + ps.length ≤ item.get_urls.length := by
      simp only [List.length_cons] at hlen
      omega
    have hfok : fetchOk url = true := hok url (List.getElem?_mem hurl)
    by_cases hc : p ∉ fs ∨ item.key ∈ upd
    · -- the slot is (re)fetched and written
      have hcase : create_image_file fetchOk upd fs item p i = .ok (p :: fs) := by
        simp [create_image_file, write_to_file, hc, hurl, hfok]
      unfold download_images
      rw [hcase]
      refine ⟨(ih (i+1) (p :: fs) hnext).1, ?_⟩
      intro q hq
      rcases List.mem_cons.mp hq with hq | hq
      · exact hq ▸ download_images_subset fetchOk upd item ps (i+1) (p :: fs)
          (List.mem_cons_self _ _)
      · exact (ih (i+1) (p :: fs) hnext).2 q hq
    · -- the slot is skipped, so the file already existed on disk
      have hcase : create_image_file fetchOk upd fs item p i = .ok fs := by
        simp [create_image_file, hc]
      have hmem : p ∈ fs := not_not.mp (not_or.mp hc).1
      unfold download_images
      rw [hcase]
      refine ⟨(ih (i+1) fs hnext).1, ?_⟩
      intro q hq
      rcases List.mem_cons.mp hq with hq | hq
      · exact hq ▸ download_images_subset fetchOk upd item ps (i+1) fs hmem
      · exact (ih (i+1) fs hnext).2 q hq

/-- When every URL an item needs is fetchable, `get_images` logs nothing and
leaves every destination path of the item present. -/
theorem get_images_ok (fetchOk : String → Bool) (upd : List Int)
    (root : String) (fs : List PathC) (item : Item)
    (hok : ∀ u ∈ item.get_urls, fetchOk u = true) :
    (get_images fetchOk upd root fs item).2 = [] ∧
    ∀ p ∈ item.get_paths root, p ∈ (get_images fetchOk upd root fs item).1 := by
  have h := download_images_ok fetchOk upd item hok (item.get_paths root) 0 fs
    (by rw [get_paths_length]; omega)
  unfold get_images
  cases hd : download_images fetchOk upd item (item.get_paths root) 0 fs with
  | mk fs2 failed =>
    rw [hd] at h
    cases failed with
    | true => exact absurd h.1 (by simp)
    | false => exact ⟨rfl, h.2⟩

/-- The log of one item's `get_images` mentions no key but the item's own. -/
theorem get_images_log_sub (fetchOk : String → Bool) (upd : List Int)
    (root : String) (fs : List PathC) (item : Item) :
    ∀ k ∈ (get_images fetchOk upd root fs item).2, k = item.key := by
  unfold get_images
  cases hd : download_images fetchOk upd item (item.get_paths root) 0 fs with
  | mk fs2 failed =>
    cases failed with
    | true =>
      intro k hk
      simpa using hk
    | false =>
      intro k hk
      simp at hk

/-- Every key in the download phase's failure log is the key of some
catalogued item. -/
theorem download_log_sub (fetchOk : String → Bool) (upd : List Int)
    (root : String) :
    ∀ (items : List Item) (fs : List PathC),
      ∀ k ∈ (download fetchOk upd root fs items).2, k ∈ items.map Item.key := by
  intro items
  induction items with
  | nil =>
    intro fs k hk
    simp [download] at hk
  | cons item rest ih =>
    intro fs k hk
    unfold download at hk
    rcases List.mem_append.mp hk with hk | hk
    · exact List.mem_cons.mpr
        (Or.inl (get_images_log_sub fetchOk upd root fs item k hk))
    · exact List.mem_cons.mpr (Or.inr (by
        simpa using ih (get_images fetchOk upd root fs item).1 k hk))

/-- When every destination of the processed slots already exists and the
pending-upgrade list is empty, the slot loop performs no write at all. -/
theorem download_images_skip (fetchOk : String → Bool) (item : Item) :
    ∀ (ps : List PathC) (i : Nat) (fs : List PathC), (∀ p ∈ ps, p ∈ fs) →
      download_images fetchOk [] item ps i fs = (fs, false) := by
  intro ps
  induction ps with
  | nil =>
    intro i fs _
    rfl
  | cons p ps ih =>
    intro i fs hall
    have hmem : p ∈ fs := hall p (List.mem_cons_self _ _)
    have hcase : create_image_file fetchOk [] fs item p i = .ok fs := by
      simp [create_image_file, hmem]
    unfold download_images
    rw [hcase]
    exact ih (i+1) fs (fun q hq => hall q (List.mem_cons_of_mem _ hq))

theorem get_images_skip (fetchOk : String → Bool) (root : String)
    (fs : List PathC) (item : Item)
    (hall : ∀ p ∈ item.get_paths root, p ∈ fs) :
    get_images fetchOk [] root fs item = (fs, []) := by
  unfold get_images
  rw [download_images_skip fetchOk item (item.get_paths root) 0 fs hall]

/-- When every item's destinations already exist and nothing is pending
upgrade, the whole download phase is a no-op with an empty log. -/
theorem download_idem (fetchOk : String → Bool) (root : String) :
    ∀ (items : List Item) (fs : List PathC),
      (∀ it ∈ items, ∀ p ∈ it.get_paths root, p ∈ fs) →
      download fetchOk [] root fs items = (fs, []) := by
  intro items
  induction items with
  | nil =>
    intro fs _
    rfl
  | cons item rest ih =>
    intro fs hall
    have h1 : get_images fetchOk [] root fs item = (fs, []) :=
      get_images_skip fetchOk root fs item (hall item (List.mem_cons_self _ _))
    have h2 : download fetchOk [] root fs rest = (fs, []) :=
      ih fs (fun it hit => hall it (List.mem_cons_of_mem _ hit))
    simp [download, h1, h2]

/-- After a download run in which every fetch succeeds, every destination
path of every catalogued item exists. -/
theorem download_all_present (upd : List Int) (root : String) :
    ∀ (items : List Item) (fs : List PathC) (j : Item), j ∈ items →
      ∀ p ∈ j.get_paths root,
        p ∈ (download (fun _ => true) upd root fs items).1 := by
  intro items
  induction items with
  | nil =>
    intro fs j hj
    cases hj
  | cons item rest ih =>
    intro fs j hj p hp
    rcases List.mem_cons.mp hj with hj | hj
    · subst hj
      have h1 := (get_images_ok (fun _ => true) upd root fs j
        (fun _ _ => rfl)).2 p hp
      simp only [download]
      exact download_subset _ _ _ rest _ h1
    · simp only [download]
      exact ih _ j hj p hp

/-- C4: with the network serving every URL, a slot's file is fetched and
written (the destination gets consed onto the filesystem) iff the
destination does not yet exist or the item's key is pending upgrade, and is
skipped (filesystem unchanged) otherwise; consequently a second download
phase over the same catalog with no remote changes (so an empty
pending-upgrade list) performs zero writes and logs nothing. -/
theorem claim_C4 :
    (∀ (upd : List Int) (fs : List PathC) (item : Item) (p : PathC) (i : Nat),
      i < item.get_urls.length →
      ((create_image_file (fun _ => true) upd fs item p i = .ok (p :: fs) ↔
        (p ∉ fs ∨ item.key ∈ upd)) ∧
       (p ∈ fs ∧ item.key ∉ upd →
        create_image_file (fun _ => true) upd fs item p i = .ok fs))) ∧
    (∀ (upd : List Int) (root : String) (fs : List PathC) (items : List Item),
      download (fun _ => true) [] root
        (download (fun _ => true) upd root fs items).1 items =
      ((download (fun _ => true) upd root fs items).1, [])) := by
  constructor
  · intro upd fs item p i hi
    obtain ⟨url, hurl⟩ : ∃ u, item.get_urls[i]? = some u := by
      cases hg : item.get_urls[i]? with
      | some u => exact ⟨u, rfl⟩
      | none =>
        have := List.getElem?_eq_none_iff.mp hg
        omega
    constructor
    · constructor
      · intro h
        by_cases hc : p ∉ fs ∨ item.key ∈ upd
        · exact hc
        · exfalso
          simp [create_image_file, hc] at h
      · intro hc
        simp [create_image_file, write_to_file, hc, hurl]
    · rintro ⟨h1, h2⟩
      have hc : ¬(p ∉ fs ∨ item.key ∈ upd) := by
        simp [h1, h2]
      simp [create_image_file, hc]
  · intro upd root fs items
    exact download_idem (fun _ => true) root items _
      (fun it hit p hp => download_all_present upd root items fs it hit p hp)

/-- A concrete still used to instantiate the download-phase claims. -/
def dlStill : Still := { key := 4, url := "//i/a.png" }

/-- The destination path of `dlStill` under root `"r"`. -/
def dlPath : PathC := ((Item.still dlStill).get_paths "r").headD []

theorem claim_C4_witness :
    0 < (Item.still dlStill).get_urls.length ∧
    ((create_image_file (fun _ => true) [] [] (Item.still dlStill) dlPath 0 =
        .ok (dlPath :: []) ↔
      (dlPath ∉ ([] : List PathC) ∨
        (Item.still dlStill).key ∈ ([] : List Int))) ∧
     (dlPath ∈ ([] : List PathC) ∧ (Item.still dlStill).key ∉ ([] : List Int) →
      create_image_file (fun _ => true) [] [] (Item.still dlStill) dlPath 0 =
        .ok [])) :=
  ⟨by decide, claim_C4.1 [] [] (Item.still dlStill) dlPath 0 (by decide)⟩

/-- C7: a failure while downloading one item's assets is confined to that
item: the phase function is total (failures become log entries, never
exceptions), every log entry is the key of some catalogued item (the logged
message names the failing item's key), and an item all of whose URLs the
network can serve is fully downloaded and never logged, regardless of how
the fetches of its siblings fail. -/
theorem claim_C7 (fetchOk : String → Bool) (upd : List Int) (root : String)
    (fs : List PathC) (items : List Item) (j : Item)
    (hj : j ∈ items) (hok : ∀ u ∈ j.get_urls, fetchOk u = true)
    (hkeys : (items.map Item.key).Nodup) :
    j.key ∉ (download fetchOk upd root fs items).2 ∧
    (∀ p ∈ j.get_paths root, p ∈ (download fetchOk upd root fs items).1) ∧
    (∀ k ∈ (download fetchOk upd root fs items).2, k ∈ items.map Item.key) := by
  have main : ∀ (its : List Item) (fs0 : List PathC), j ∈ its →
      ((its.map Item.key).Nodup) →
      j.key ∉ (download fetchOk upd root fs0 its).2 ∧
      ∀ p ∈ j.get_paths root, p ∈ (download fetchOk upd root fs0 its).1 := by
    intro its
    induction its with
    | nil =>
      intro fs0 hj0
      cases hj0
    | cons item rest ih =>
      intro fs0 hj0 hnd
      have hnd1 : item.key ∉ rest.map Item.key := (List.nodup_cons.mp hnd).1
      have hnd2 : (rest.map Item.key).Nodup := (List.nodup_cons.mp hnd).2
      rcases List.mem_cons.mp hj0 with hje | hjr
      · subst hje
        have hgi := get_images_ok fetchOk upd root fs0 j hok
        constructor
        · intro habs
          unfold download at habs
          rcases List.mem_append.mp habs with h | h
          · rw [hgi.1] at h
            cases h
          · exact hnd1 (download_log_sub fetchOk upd root rest _ j.key h)
        · intro p hp
          simp only [download]
          exact download_subset _ _ _ rest _ (hgi.2 p hp)
      · have hne : item.key ≠ j.key := by
          intro he
          exact hnd1 (he ▸ List.mem_map.mpr ⟨j, hjr, rfl⟩)
        have ihr := ih (get_images fetchOk upd root fs0 item).1 hjr hnd2
        constructor
        · intro habs
          unfold download at habs
          rcases List.mem_append.mp habs with h | h
          · exact hne (get_images_log_sub fetchOk upd root fs0 item j.key h).symm
          · exact ihr.1 h
        · intro p hp
          simp only [download]
          exact ihr.2 p hp
  exact ⟨(main items fs hj hkeys).1, (main items fs hj hkeys).2,
    download_log_sub fetchOk upd root items fs⟩

/-- The one-item catalog used to instantiate C7. -/
def dlItems : List Item := [Item.still dlStill]

theorem claim_C7_witness :
    (Item.still dlStill) ∈ dlItems ∧
    ((Item.still dlStill).key ∉ (download (fun _ => true) [] "r" [] dlItems).2 ∧
     (∀ p ∈ (Item.still dlStill).get_paths "r",
       p ∈ (download (fun _ => true) [] "r" [] dlItems).1) ∧
     (∀ k ∈ (download (fun _ => true) [] "r" [] dlItems).2,
       k ∈ dlItems.map Item.key)) :=
  ⟨by decide, claim_C7 (fun _ => true) [] "r" [] dlItems (Item.still dlStill)
    (by decide) (fun _ _ => rfl) (by decide)⟩

theorem claim_C5_witness :
    (toString extCardA.key).data ≠ [] ∧
    (∃ pre rest, (extCardA.get_paths "r").headD [] =
      pre ++ [(toString extCardA.key).data ++ '_' :: rest]) :=
  ⟨by decide, claim_C5.2.2.2.1 extCardA "r" (by decide) (by decide) (by decide)
    (by decide) (by decide) ((extCardA.get_paths "r").headD []) (by decide)⟩

/-- The loop `for key, item in self.objs.items(): await
self.update_if_needed(item)` from `Downloader.update`, threading the
`self.updateables` list (appending `item.key` whenever the reconciler
flagged the item). There is no `try/except` around the loop body, so the
first exception propagates. -/
def updatePhase (fetch : Int → Except Exc Item) :
    List Item → List Int → Except Exc (List Item × List Int)
  | [], upd => .ok ([], upd)
  | it :: rest, upd => do
    let r ← update_if_needed fetch it
    let upd2 := if r.2 then upd ++ [it.key] else upd
    let (rest2, upd3) ← updatePhase fetch rest upd2
    .ok (r.1 :: rest2, upd3)

/-- `Downloader.update`, from the point where the catalog is populated: run
the reconciliation loop over every catalogued item, then persist the catalog
(`self.update_json_file()`); the final `Bool` is true iff persistence ran.
An exception anywhere in the loop aborts the whole run before persistence. -/
def Downloader.update (fetch : Int → Except Exc Item) (items : List Item) :
    Except Exc (List Item × List Int × Bool) :=
  match updatePhase fetch items [] with
  | .ok (items2, upd) => .ok (items2, upd, true)
  | .error e => .error e

/-- A non-high-res still whose re-fetch will fail. -/
def staleStillA : Still := { key := 2, url := "//i/a.png" }

/-- A second non-high-res still, catalogued after `staleStillA`. -/
def staleStillB : Still := { key := 1, url := "//i/b.png" }

/-- A fetch in which item 2's detail page fails to parse while item 1
re-parses fine (at a better resolution). -/
def failingFetch : Int → Except Exc Item :=
  fun k =>
    if k = 2 then .error .itemParsing
    else .ok (Item.still { key := 1, url := "//i/2x/b.png" })

/-- C8: contrary to the claim, a failure while re-checking a single
catalogued item IS fatal to the reconciliation phase: with two items needing
a check and the first one's re-fetch raising `ItemParsingException`, the
whole run aborts with that exception, the second item is never reconciled
and the catalog is not persisted (the spec itself flags this as the code
re-raising unhandled). -/
theorem claim_C8 :
    Downloader.update failingFetch
        [Item.still staleStillA, Item.still staleStillB] =
      .error .itemParsing := rfl

/-- An anchor tag (`<a>`), carrying an optional `href` attribute:
`Tag.get("href")` returns `None` when the attribute is absent. -/
structure Anchor where
  href : Option String
deriving DecidableEq, Repr

/-- A `class="top-item"` container: the list of its anchor descendants, as
returned by `find_all("a")`; `find("a")` is its head. -/
structure TopItem where
  anchors : List Anchor
deriving DecidableEq, Repr

/-- Value of the digits `ds`, as Python `int()` computes it. -/
def digitsToNat (ds : List Char) : Nat :=
  ds.foldl (fun acc c => 10 * acc + (c.toNat - 48)) 0

/-- Model of `re.compile(r"/([0-9]+)/").search(s)`, returning `int(group(1))`:
scan left to right for a `/`, take the maximal digit run after it and demand
a closing `/` (backtracking inside the maximal run cannot help, because a
shorter run is followed by a digit, not by `/`). -/
def findSlashNum : List Char → Option Nat
  | [] => none
  | '/' :: t =>
    let ds := t.takeWhile Char.isDigit
    if ds ≠ [] ∧ (t.drop ds.length).head? = some '/' then
      some (digitsToNat ds)
    else
      findSlashNum t
  | _ :: t => findSlashNum t

/-- The keys advertised on a listing page, in page order: one key per
`top-item` whose first anchor has an `href` containing `/([0-9]+)/`. -/
def pageKeys (page : List TopItem) : List Nat :=
  page.filterMap (fun item =>
    item.anchors.head?.bind (fun a => a.href.bind (fun s => findSlashNum s.data)))

/-- `ListParser.get_page`: collect the keys of the page's `top-item`
containers and return them sorted descending; raise `ListParsingException`
when no key could be extracted. -/
def get_page (page : List TopItem) : Except Exc (List Nat) :=
  let nums := pageKeys page
  if nums.isEmpty then .error .listParsing
  else .ok (nums.mergeSort (fun a b => decide (b ≤ a)))

/-- C6: `get_page` raises `ListParsingException` exactly when no item
container with an identifier-bearing link is present (no key can be
extracted), and otherwise returns precisely the advertised keys, as a
non-empty descending sequence. -/
theorem claim_C6 (page : List TopItem) :
    (get_page page = .error .listParsing ↔ pageKeys page = []) ∧
    (∀ l, get_page page = .ok l →
      l ≠ [] ∧ l.Perm (pageKeys page) ∧ l.Sorted (· ≥ ·)) := by
  constructor
  · constructor
    · intro h
      unfold get_page at h
      by_cases he : (pageKeys page).isEmpty
      · exact List.isEmpty_iff.mp he
      · rw [if_neg he] at h
        cases h
    · intro h
      unfold get_page
      rw [if_pos (List.isEmpty_iff.mpr h)]
  · intro l hl
    unfold get_page at hl
    by_cases he : (pageKeys page).isEmpty
    · rw [if_pos he] at hl
      cases hl
    · rw [if_neg he] at hl
      have hl2 : l = (pageKeys page).mergeSort (fun a b => decide (b ≤ a)) := by
        cases hl
        rfl
      subst hl2
      have hperm := List.mergeSort_perm (pageKeys page) (fun a b => decide (b ≤ a))
      refine ⟨?_, hperm, ?_⟩
      · intro habs
        rw [habs] at hperm
        exact he (List.isEmpty_iff.mpr hperm.symm.eq_nil)
      · have hs := @List.sorted_mergeSort Nat
          (fun a b : Nat => decide (b ≤ a))
          (fun a b c hab hbc => by
            simp only [decide_eq_true_eq] at hab hbc ⊢
            omega)
          (fun a b => by
            simp only [Bool.or_eq_true, decide_eq_true_eq]
            omega)
          (pageKeys page)
        refine List.Pairwise.imp ?_ hs
        intro a b hab
        simpa using hab


/-- A concrete listing page with one keyed top-item, used to instantiate
C6. -/
def samplePage : List TopItem :=
  [{ anchors := [{ href := some "/cards/49/ab" }] }]

theorem samplePage_keys : pageKeys samplePage = [49] := rfl

theorem samplePage_get : get_page samplePage = .ok [49] := by
  unfold get_page
  rw [samplePage_keys]
  simp [List.mergeSort_singleton]

theorem claim_C6_witness :
    get_page samplePage = .ok [49] ∧
    ([49] ≠ ([] : List Nat) ∧ ([49] : List Nat).Perm (pageKeys samplePage) ∧
      ([49] : List Nat).Sorted (· ≥ ·)) :=
  ⟨samplePage_get, (claim_C6 samplePage).2 [49] samplePage_get⟩

/-- A detail page's parsed markup, as far as the image-URL extraction is
concerned: `soup.find(class_="top-item")` either finds a container or not.
(The labelled data fields of a card page play no role in these claims.) -/
structure DetailSoup where
  top_item : Option TopItem
deriving DecidableEq, Repr

/-- `CardParser.get_item_image_urls`: requires the top-item container, a
non-empty anchor list, and `isinstance(..., str)` `href`s at positions 0 and
1 (checked in that order, short-circuiting); indexing `links[1]` with a
single anchor raises Python's `IndexError`, not `ItemParsingException`. -/
def CardParser.get_item_image_urls (soup : DetailSoup) :
    Except Exc (String × String) :=
  match soup.top_item with
  | none => .error .itemParsing
  | some ti =>
    match ti.anchors with
    | [] => .error .itemParsing
    | a0 :: rest =>
      match a0.href with
      | none => .error .itemParsing
      | some first =>
        match rest with
        | [] => .error .indexError
        | a1 :: _ =>
          match a1.href with
          | none => .error .itemParsing
          | some second => .ok (first, second)

/-- `StillParser.get_item_image_url`: requires the top-item container and a
non-empty anchor list, then returns `links[0].get("href")` verbatim — with
NO `isinstance` check, so a missing attribute flows out as `None`
(here `Option.none`) instead of raising. -/
def StillParser.get_item_image_url (soup : DetailSoup) :
    Except Exc (Option String) :=
  match soup.top_item with
  | none => .error .itemParsing
  | some ti =>
    match ti.anchors with
    | [] => .error .itemParsing
    | a0 :: _ => .ok a0.href

/-- A `Still` as `StillParser.create_item` actually builds it: the `url`
field holds whatever `get("href")` returned, i.e. a string or `None`,
Python's type annotation notwithstanding. -/
structure StillRaw where
  key : Int
  url : Option String
deriving DecidableEq, Repr

/-- `StillParser.create_item`: build the `Still` from the extracted link and
return it keyed by `num`. -/
def StillParser.create_item (num : Int) (soup : DetailSoup) :
    Except Exc (Int × StillRaw) :=
  match StillParser.get_item_image_url soup with
  | .ok u => .ok (num, { key := num, url := u })
  | .error e => .error e

/-- Markup whose top-item region has exactly one anchor, and that anchor
carries no `href` attribute. -/
def hrefLessSoup : DetailSoup :=
  { top_item := some { anchors := [{ href := none }] } }

/-- C10: on markup whose top-item region contains an anchor without an
`href`, the still parser does not raise: it returns a Still whose url field
is the missing-attribute value `none` rather than a string, while the card
parser rejects the same markup with `ItemParsingException`. -/
theorem claim_C10 :
    StillParser.create_item 5 hrefLessSoup =
      .ok (5, { key := 5, url := none }) ∧
    CardParser.get_item_image_urls hrefLessSoup = .error .itemParsing :=
  ⟨rfl, rfl⟩

end SifasModel
